import Mathlib

/-!
Shallow embedding of foucluster/transform.py and verification of its
specification claims.  Amplitudes and frequencies are modelled as exact
rationals (ℚ); numpy arrays become lists; numpy NaN (mean of an empty
selection) becomes Option.none.
-/

namespace Foucluster

/-! Definitions: the shallow embedding of transform.py. -/

/-- Helper for npArgmax: scans the tail, keeping the current best value,
its index, and the index of the element about to be examined.
np.argmax keeps the first index attaining the maximum, so a later equal
value does not replace the current best. -/
def argmaxGo : List ℚ → ℚ → ℕ → ℕ → ℕ
  | [], _, best, _ => best
  | y :: ys, m, best, i =>
      if m < y then argmaxGo ys y i (i + 1) else argmaxGo ys m best (i + 1)

/-- Model of np.argmax: index of the first occurrence of the maximum
(0 on the empty array, which numpy instead rejects; fourier_song only
applies it to nonempty arrays). -/
def npArgmax : List ℚ → ℕ
  | [] => 0
  | x :: rest => argmaxGo rest x 0 1

/-- Model of np.max on a nonempty array (0 on the empty array, which
numpy instead rejects). -/
def npMax : List ℚ → ℚ
  | [] => 0
  | x :: rest => rest.foldl max x

/-- Lines 63-65 of transform.py, the normalization step of fourier_song:
the first global-maximum bin is set to 0.0, the scale a is the maximum of
the remaining amplitudes divided by 100.0, and every amplitude is divided
by a. -/
def normalizeSpectrum (fourier : List ℚ) : List ℚ :=
  let zeroed := fourier.set (npArgmax fourier) 0
  let a := npMax zeroed / 100
  zeroed.map (fun y => y / a)

/-- Line 52 of transform.py: the padded length 2 ** ceil(log2 n),
written with the ceiling base-2 logarithm on ℕ. -/
def padLength (n : ℕ) : ℕ := 2 ^ Nat.clog 2 n

/-- Lines 52-53 of transform.py: channel_1 = np.zeros(padLength n);
channel_1[0:n] = aud_data. -/
def zeroPad (xs : List ℚ) : List ℚ :=
  xs ++ List.replicate (padLength xs.length - xs.length) 0

/-- Model of np.mean: the mean of an empty selection is numpy NaN,
modelled as none. -/
def npMean (xs : List ℚ) : Option ℚ :=
  if xs.length = 0 then none else some (xs.sum / xs.length)

/-- Lines 85-87 of transform.py: the boolean mask
(freq >= i) * (freq < i + min_freq), applied to the parallel
freq/features arrays, modelled on the zipped point list. -/
def binPoints (pts : List (ℚ × ℚ)) (i : ℕ) (minFreq : ℚ) : List (ℚ × ℚ) :=
  pts.filter (fun p => decide ((i : ℚ) ≤ p.1) && decide (p.1 < (i : ℚ) + minFreq))

/-- Lines 70-90 of transform.py, group_by_freq.  max_rate defaults to
np.max(freq); final_length = int(max_rate / min_freq), where Python int()
truncation composed with range agrees with the floor composed with toNat
used here (negative or fractional quotients give an empty range either
way); each output entry is (mean of frequencies, mean of features) over
the mask of bin i. -/
def group_by_freq (pts : List (ℚ × ℚ)) (maxRate : Option ℚ) (minFreq : ℚ) :
    List (Option ℚ × Option ℚ) :=
  let mr := maxRate.getD (npMax (pts.map Prod.fst))
  let finalLength := (⌊mr / minFreq⌋).toNat
  (List.range finalLength).map (fun i =>
    (npMean ((binPoints pts i minFreq).map Prod.fst),
     npMean ((binPoints pts i minFreq).map Prod.snd)))

/-- Lines 104-116 of transform.py, limit_by_freq: an optional bottom mask
freq >= bottom_limit, then the upper mask freq <= upper_limit, both
applied to the parallel freq/features arrays, modelled on the zipped
point list. -/
def limit_by_freq (pts : List (ℚ × ℚ)) (upperLimit : ℚ) (bottomLimit : Option ℚ) :
    List (ℚ × ℚ) :=
  let pts1 := match bottomLimit with
    | some b => pts.filter (fun p : ℚ × ℚ => decide (b ≤ p.1))
    | none => pts
  pts1.filter (fun p : ℚ × ℚ => decide (p.1 ≤ upperLimit))

/-- Events observable in the modelled run of time_to_frequency: the calls
to transform_wav, fourier_song, json.dump and fourier_plot. -/
inductive Event
  | transformWavCall
  | fourierSongCall
  | jsonSaveCall
  | plotCall
deriving DecidableEq

/-- Lines 159-191 of transform.py, time_to_frequency, modelled on the
track's output record: jsonContent is the current content of the track's
record file (none when the file is absent) and newContent the serialized
spectrum a fresh run would write.  transform_wav is called
unconditionally on line 167; fourier_song, the json dump and the optional
plot run only under the guard of line 171:
not os.path.isfile(full_json_name) or overwrite is True. -/
def time_to_frequency (jsonContent : Option String) (overwrite plot : Bool)
    (newContent : String) : Option String × List Event :=
  if jsonContent.isNone || overwrite then
    (some newContent,
     [Event.transformWavCall, Event.fourierSongCall, Event.jsonSaveCall] ++
       (if plot then [Event.plotCall] else []))
  else (jsonContent, [Event.transformWavCall])

/-- Outcome of one subprocess.run call: either launching the process
raises an exception (e.g. the binary is missing), or the process runs and
exits with some code.  subprocess.run without check=True raises nothing
on a non-zero exit code. -/
inductive RunOutcome
  | raises
  | exits (code : Int)
deriving DecidableEq

/-- External tools tried by transform_wav. -/
inductive Tool
  | mpg123
  | ffmpeg
deriving DecidableEq

/-- Lines 32-40 of transform.py, transform_wav: skipped entirely when the
wav file exists; otherwise subprocess.run is called on mpg123, and only
when that call raises an exception does the except block run ffmpeg; an
exception from the ffmpeg call itself is not caught.  The model returns
the list of tools launched and whether an exception escapes to the
caller. -/
def transform_wav (wavExists : Bool) (primary secondary : RunOutcome) :
    List Tool × Bool :=
  if wavExists then ([], false)
  else
    match primary with
    | RunOutcome.exits _ => ([Tool.mpg123], false)
    | RunOutcome.raises =>
        match secondary with
        | RunOutcome.exits _ => ([Tool.mpg123, Tool.ffmpeg], false)
        | RunOutcome.raises => ([Tool.mpg123, Tool.ffmpeg], true)

/-- Result collection of mp.Pool.starmap (line 231 of transform.py):
every submitted task is executed by the pool workers, and when the
results are collected starmap re-raises the first task exception in the
parent process. -/
def gatherResults {ε β : Type} : List (Except ε β) → Except ε (List β)
  | [] => Except.ok []
  | Except.error e :: _ => Except.error e
  | Except.ok b :: rest => (gatherResults rest).map (fun bs => b :: bs)

/-- Lines 226-231 of transform.py, all_songs: the per-song unit of work
(time_to_frequency: decode, transform, store) is applied to every entry
of the source folder through pool.starmap.  f models the per-song unit,
returning ok or the per-song exception; the first component records every
per-song run (all tasks are executed by the workers), the second is what
the starmap call returns to all_songs' caller. -/
def all_songs {α ε β : Type} (f : α → Except ε β) (songs : List α) :
    List (Except ε β) × Except ε (List β) :=
  (songs.map f, gatherResults (songs.map f))

/-- Line 230 of transform.py: the worker count passed to mp.Pool is
int(mp.cpu_count() / 2); Python true division followed by int()
truncation equals Nat floor division on a core count. -/
def pool_size (cpuCount : ℕ) : ℕ := cpuCount / 2

/-- Model of the mp.Pool constructor: it raises
ValueError("Number of processes must be at least 1") when processes < 1
and otherwise creates a pool with that many workers. -/
def mk_pool (processes : ℕ) : Except String ℕ :=
  if processes < 1 then Except.error "Number of processes must be at least 1"
  else Except.ok processes

/-- Model of one Python dict.update({k: v}) step on the record being
built on lines 177-179 of transform.py: when k is already a key, its
entry keeps its position and only the value is replaced; otherwise the
pair is appended.  Keys are the stringified bin frequencies str(x):
none stands for the string 'nan', which every NaN frequency produces,
and some q for the text form of the finite value q, distinct for
distinct values. -/
def dict_update (d : List (Option ℚ × ℚ)) (k : Option ℚ) (v : ℚ) :
    List (Option ℚ × ℚ) :=
  if (d.find? (fun p => decide (p.1 = k))).isSome then
    d.map (fun p => if p.1 = k then (k, v) else p)
  else d ++ [(k, v)]

/-- Lines 177-179 of transform.py: freq_dict built by folding
freq_dict.update({str(x): y}) over zip(frequencies, fourier_series). -/
def build_freq_dict (pairs : List (Option ℚ × ℚ)) : List (Option ℚ × ℚ) :=
  pairs.foldl (fun d p => dict_update d p.1 p.2) []

/-! Helper lemmas. -/

lemma foldl_max_le {l : List ℚ} {a b : ℚ} (ha : a ≤ b) :
    l.foldl max a ≤ l.foldl max b := by
  induction l generalizing a b with
  | nil => simpa using ha
  | cons x xs ih => exact ih (max_le_max_right x ha)

lemma le_foldl_max (l : List ℚ) (a : ℚ) : a ≤ l.foldl max a := by
  induction l generalizing a with
  | nil => simp
  | cons x xs ih => exact le_trans (le_max_left a x) (ih (max a x))

lemma foldl_max_mem (l : List ℚ) (a : ℚ) : l.foldl max a = a ∨ l.foldl max a ∈ l := by
  induction l generalizing a with
  | nil => simp
  | cons x xs ih =>
      rw [List.foldl_cons]
      rcases ih (max a x) with h | h
      · rcases max_choice a x with hm | hm
        · exact Or.inl (by rw [h, hm])
        · exact Or.inr (by rw [h, hm]; exact List.mem_cons_self x xs)
      · exact Or.inr (List.mem_cons_of_mem _ h)

lemma mem_le_foldl_max {l : List ℚ} {x : ℚ} (a : ℚ) (hx : x ∈ l) :
    x ≤ l.foldl max a := by
  induction l generalizing a with
  | nil => cases hx
  | cons y ys ih =>
      rcases List.mem_cons.mp hx with rfl | h
      · exact le_trans (le_max_right a x) (le_foldl_max ys _)
      · exact ih _ h

lemma npMax_mem {l : List ℚ} (h : l ≠ []) : npMax l ∈ l := by
  match l, h with
  | x :: rest, _ =>
      rcases foldl_max_mem rest x with h0 | h0
      · simp [npMax, h0]
      · simp [npMax, List.mem_cons_of_mem, h0]

lemma le_npMax {l : List ℚ} {x : ℚ} (hx : x ∈ l) : x ≤ npMax l := by
  match l, hx with
  | y :: rest, hx =>
      rcases List.mem_cons.mp hx with rfl | h
      · exact le_foldl_max rest x
      · exact mem_le_foldl_max y h

lemma max_div_pos {x y a : ℚ} (ha : 0 < a) : max (x / a) (y / a) = max x y / a := by
  rcases le_total x y with h | h
  · rw [max_eq_right h, max_eq_right (div_le_div_of_nonneg_right h ha.le)]
  · rw [max_eq_left h, max_eq_left (div_le_div_of_nonneg_right h ha.le)]

lemma foldl_max_div (rest : List ℚ) (x a : ℚ) (ha : 0 < a) :
    (rest.map (fun y => y / a)).foldl max (x / a) = rest.foldl max x / a := by
  induction rest generalizing x with
  | nil => simp
  | cons y ys ih =>
      simp only [List.map_cons, List.foldl_cons]
      rw [max_div_pos ha]
      exact ih (max x y)

lemma npMax_map_div {l : List ℚ} {a : ℚ} (hl : l ≠ []) (ha : 0 < a) :
    npMax (l.map (fun y => y / a)) = npMax l / a := by
  match l, hl with
  | x :: rest, _ => exact foldl_max_div rest x a ha

lemma argmaxGo_lt (ys : List ℚ) :
    ∀ (m : ℚ) (best i : ℕ), best < i → argmaxGo ys m best i < i + ys.length := by
  induction ys with
  | nil =>
      intro m best i h
      simpa [argmaxGo] using h
  | cons y ys ih =>
      intro m best i h
      simp only [argmaxGo, List.length_cons]
      by_cases hc : m < y
      · simpa [hc, Nat.add_comm, Nat.add_left_comm, Nat.add_assoc] using
          ih y i (i + 1) (Nat.lt_succ_self i)
      · simpa [hc, Nat.add_comm, Nat.add_left_comm, Nat.add_assoc] using
          ih m best (i + 1) (lt_trans h (Nat.lt_succ_self i))

lemma npArgmax_lt_length {l : List ℚ} (h : l ≠ []) : npArgmax l < l.length := by
  match l, h with
  | x :: rest, _ =>
      have := argmaxGo_lt rest x 0 1 Nat.zero_lt_one
      simpa [npArgmax, Nat.add_comm] using this

lemma binPoints_aligned (l : List (ℚ × ℚ)) (c : ℕ)
    (hal : ∀ j (hj : j < l.length),
      ((c + j : ℕ) : ℚ) ≤ l[j].1 ∧ l[j].1 < ((c + j : ℕ) : ℚ) + 1) :
    ∀ i (hi : i < l.length),
      l.filter (fun p => decide (((c + i : ℕ) : ℚ) ≤ p.1) &&
        decide (p.1 < ((c + i : ℕ) : ℚ) + 1)) = [l[i]] := by
  induction l generalizing c with
  | nil => intro i hi; cases (Nat.not_lt_zero i) hi
  | cons p rest ih =>
      have hal0 : ((c : ℚ) ≤ p.1 ∧ p.1 < (c : ℚ) + 1) := by
        simpa using hal 0 (Nat.succ_pos _)
      have halrest : ∀ j (hj : j < rest.length),
          (((c + 1) + j : ℕ) : ℚ) ≤ rest[j].1 ∧
          rest[j].1 < (((c + 1) + j : ℕ) : ℚ) + 1 := by
        intro j hj
        have := hal (j + 1) (by simpa using Nat.succ_lt_succ hj)
        have harr : c + (j + 1) = (c + 1) + j := by omega
        simpa [harr] using this
      intro i hi
      match i with
      | 0 =>
          have hp : (decide (((c + 0 : ℕ) : ℚ) ≤ p.1) &&
              decide (p.1 < ((c + 0 : ℕ) : ℚ) + 1)) = true := by
            simp only [Nat.add_zero, Bool.and_eq_true, decide_eq_true_eq]
            exact hal0
          rw [List.filter_cons, if_pos hp]
          have hrest : rest.filter (fun q => decide (((c + 0 : ℕ) : ℚ) ≤ q.1) &&
              decide (q.1 < ((c + 0 : ℕ) : ℚ) + 1)) = [] := by
            rw [List.filter_eq_nil_iff]
            intro q hq
            rcases List.mem_iff_getElem.mp hq with ⟨j, hj, rfl⟩
            have h1 := (halrest j hj).1
            push_cast at h1
            have hj0 : (0 : ℚ) ≤ (j : ℚ) := Nat.cast_nonneg j
            simp only [Bool.and_eq_true, decide_eq_true_eq, not_and, not_lt]
            intro _
            push_cast
            linarith
          rw [hrest]
          simp
      | Nat.succ j =>
          have hj : j < rest.length := Nat.lt_of_succ_lt_succ hi
          have hnp : ¬ (((c + (j + 1) : ℕ) : ℚ) ≤ p.1) := by
            have h2 := hal0.2
            have hj0 : (0 : ℚ) ≤ (j : ℚ) := Nat.cast_nonneg j
            push_cast
            intro hcon
            linarith
          have hp1 : decide (((c + (j + 1) : ℕ) : ℚ) ≤ p.1) = false :=
            decide_eq_false hnp
          have hfalse : ¬ ((decide (((c + (j + 1) : ℕ) : ℚ) ≤ p.1) &&
              decide (p.1 < ((c + (j + 1) : ℕ) : ℚ) + 1)) = true) := by
            rw [hp1]
            simp
          rw [List.filter_cons, if_neg hfalse]
          have harr : c + (j + 1) = (c + 1) + j := by omega
          rw [show ((c + (j + 1) : ℕ) : ℚ) = (((c + 1) + j : ℕ) : ℚ) by rw [harr]]
          have := ih (c + 1) halrest j hj
          rw [this]
          simp

lemma gatherResults_error {ε β : Type} (l : List (Except ε β)) (e : ε)
    (h : Except.error e ∈ l) : ∃ e2, gatherResults l = Except.error e2 := by
  induction l with
  | nil => cases h
  | cons x rest ih =>
      match x with
      | Except.error e0 => exact ⟨e0, rfl⟩
      | Except.ok b =>
          rcases List.mem_cons.mp h with h0 | h0
          · simp at h0
          · rcases ih h0 with ⟨e2, he⟩
            refine ⟨e2, ?_⟩
            rw [gatherResults, he]
            rfl

lemma countP_map_update (d : List (Option ℚ × ℚ)) (k : Option ℚ) (v : ℚ)
    (k' : Option ℚ) :
    (d.map (fun p => if p.1 = k then (k, v) else p)).countP
        (fun p => decide (p.1 = k')) =
      d.countP (fun p => decide (p.1 = k')) := by
  induction d with
  | nil => simp
  | cons p rest ih =>
      by_cases hp : p.1 = k <;>
        simp [List.countP_cons, hp, ih]

lemma find?_map_update (d : List (Option ℚ × ℚ)) (k : Option ℚ) (v : ℚ)
    (k' : Option ℚ) :
    ((d.map (fun p => if p.1 = k then (k, v) else p)).find?
        (fun p => decide (p.1 = k'))) =
      if k' = k then (d.find? (fun p => decide (p.1 = k))).map (fun _ => (k, v))
      else d.find? (fun p => decide (p.1 = k')) := by
  induction d with
  | nil => by_cases h : k' = k <;> simp [h]
  | cons p rest ih =>
      rw [List.map_cons]
      by_cases hp : p.1 = k
      · rw [if_pos hp]
        by_cases hk : k' = k
        · subst hk
          rw [List.find?_cons_of_pos _ (by simp), if_pos rfl,
            List.find?_cons_of_pos _ (by simp [hp])]
          rfl
        · have hkv : ¬ ((k : Option ℚ) = k') := fun h => hk h.symm
          have hpk2 : ¬ (p.1 = k') := fun h => hk (h.symm.trans hp)
          rw [List.find?_cons_of_neg _ (by simpa using hkv), ih, if_neg hk, if_neg hk,
            List.find?_cons_of_neg _ (by simpa using hpk2)]
      · rw [if_neg hp]
        by_cases hk : k' = k
        · subst hk
          rw [List.find?_cons_of_neg _ (by simpa using hp), ih, if_pos rfl, if_pos rfl,
            List.find?_cons_of_neg _ (by simpa using hp)]
        · by_cases hpk : p.1 = k'
          · rw [List.find?_cons_of_pos _ (by simpa using hpk), if_neg hk,
              List.find?_cons_of_pos _ (by simpa using hpk)]
          · rw [List.find?_cons_of_neg _ (by simpa using hpk), ih, if_neg hk, if_neg hk,
              List.find?_cons_of_neg _ (by simpa using hpk)]

lemma find?_dict_update (d : List (Option ℚ × ℚ)) (k : Option ℚ) (v : ℚ)
    (k' : Option ℚ) :
    (dict_update d k v).find? (fun p => decide (p.1 = k')) =
      if k' = k then some (k, v)
      else d.find? (fun p => decide (p.1 = k')) := by
  rw [dict_update]
  by_cases hf : (d.find? (fun p => decide (p.1 = k))).isSome
  · rw [if_pos hf, find?_map_update]
    by_cases hk : k' = k
    · rcases Option.isSome_iff_exists.mp hf with ⟨q, hq⟩
      simp [hk, hq]
    · simp [hk]
  · rw [if_neg hf, List.find?_append]
    have hnone : d.find? (fun p => decide (p.1 = k)) = none :=
      Option.not_isSome_iff_eq_none.mp hf
    by_cases hk : k' = k
    · rw [hk, hnone]
      simp
    · have hkk : ¬ ((k : Option ℚ) = k') := fun h => hk h.symm
      have hsing : ([((k : Option ℚ), v)].find? (fun p => decide (p.1 = k'))) = none := by
        simp [hkk]
      rw [hsing]
      simp [hk]

lemma count_le_one_dict_update {d : List (Option ℚ × ℚ)}
    (hP : ∀ k0, d.countP (fun p => decide (p.1 = k0)) ≤ 1)
    (k : Option ℚ) (v : ℚ) :
    ∀ k0, (dict_update d k v).countP (fun p => decide (p.1 = k0)) ≤ 1 := by
  intro k0
  rw [dict_update]
  by_cases hf : (d.find? (fun p => decide (p.1 = k))).isSome
  · rw [if_pos hf, countP_map_update]
    exact hP k0
  · rw [if_neg hf, List.countP_append]
    have hnone : d.find? (fun p => decide (p.1 = k)) = none :=
      Option.not_isSome_iff_eq_none.mp hf
    by_cases hk : k = k0
    · have hzero : d.countP (fun p => decide (p.1 = k0)) = 0 := by
        rw [List.countP_eq_zero]
        intro a ha
        have := List.find?_eq_none.mp hnone a ha
        simpa [hk] using this
      simp [hzero, hk]
    · have hone : ([((k : Option ℚ), v)].countP (fun p => decide (p.1 = k0))) = 0 := by
        simp [hk]
      rw [hone]
      simpa using hP k0

lemma dict_update_length_le (d : List (Option ℚ × ℚ)) (k : Option ℚ) (v : ℚ) :
    (dict_update d k v).length ≤ d.length + 1 := by
  rw [dict_update]
  by_cases hf : (d.find? (fun p => decide (p.1 = k))).isSome
  · rw [if_pos hf]
    simp
  · rw [if_neg hf]
    simp

lemma build_freq_dict_invariant (pairs : List (Option ℚ × ℚ)) :
    (∀ k, (build_freq_dict pairs).countP (fun p => decide (p.1 = k)) ≤ 1) ∧
    (∀ k, (build_freq_dict pairs).find? (fun p => decide (p.1 = k)) =
      ((pairs.filter (fun p => decide (p.1 = k))).getLast?).map (fun q => (k, q.2))) ∧
    (build_freq_dict pairs).length ≤ pairs.length := by
  induction pairs using List.reverseRecOn with
  | nil => simp [build_freq_dict]
  | append_singleton ps x ih =>
      obtain ⟨ih1, ih2, ih3⟩ := ih
      have hbuild : build_freq_dict (ps ++ [x]) =
          dict_update (build_freq_dict ps) x.1 x.2 := by
        rw [build_freq_dict, build_freq_dict, List.foldl_append]
        rfl
      refine ⟨?_, ?_, ?_⟩
      · intro k
        rw [hbuild]
        exact count_le_one_dict_update ih1 x.1 x.2 k
      · intro k
        rw [hbuild, find?_dict_update]
        by_cases hk : k = x.1
        · rw [if_pos hk, List.filter_append]
          have hx : ([x].filter (fun p => decide (p.1 = k))) = [x] := by
            simp [hk]
          rw [hx, List.getLast?_concat]
          simp [hk]
        · rw [if_neg hk, List.filter_append]
          have hxk : ¬ (x.1 = k) := fun h => hk h.symm
          have hx : ([x].filter (fun p => decide (p.1 = k))) = [] := by
            simp [hxk]
          rw [hx, List.append_nil]
          exact ih2 k
      · rw [hbuild]
        calc (dict_update (build_freq_dict ps) x.1 x.2).length
            ≤ (build_freq_dict ps).length + 1 := dict_update_length_le _ _ _
          _ ≤ ps.length + 1 := Nat.add_le_add_right ih3 1
          _ = (ps ++ [x]).length := by simp

/-! Claim C1 -/

/-- C1: for a non-degenerate spectrum (nonempty, and with a positive
maximum left after the first global-maximum bin is zeroed), the spectrum
returned by the normalization step of fourier_song has maximum amplitude
exactly 100, and the bin that held the first global maximum before
normalization is exactly 0 afterwards: the argmax bin is zeroed, then
every amplitude is divided by a = max(remaining amplitudes) / 100. -/
theorem fourier_song_normalization (fourier : List ℚ) (hne : fourier ≠ [])
    (hpos : 0 < npMax (fourier.set (npArgmax fourier) 0)) :
    npMax (normalizeSpectrum fourier) = 100 ∧
    (normalizeSpectrum fourier)[npArgmax fourier]? = some 0 := by
  have hzne : fourier.set (npArgmax fourier) 0 ≠ [] := by
    intro h
    apply hne
    have := congrArg List.length h
    simpa using List.eq_nil_of_length_eq_zero (by simpa using this)
  have hm0 : npMax (fourier.set (npArgmax fourier) 0) ≠ 0 := ne_of_gt hpos
  have ha : 0 < npMax (fourier.set (npArgmax fourier) 0) / 100 := by positivity
  constructor
  · rw [normalizeSpectrum, npMax_map_div hzne ha]
    field_simp
  · have hlt : npArgmax fourier < (fourier.set (npArgmax fourier) 0).length := by
      simpa using npArgmax_lt_length hne
    rw [normalizeSpectrum]
    simp only [List.getElem?_map, List.getElem?_set_self (by simpa using npArgmax_lt_length hne)]
    simp

/-- C1 witness: the theorem applied to the concrete spectrum
[3, 50, 7]. -/
theorem fourier_song_normalization_witness :
    ([3, 50, 7] : List ℚ) ≠ [] ∧
    0 < npMax (([3, 50, 7] : List ℚ).set (npArgmax [3, 50, 7]) 0) ∧
    (npMax (normalizeSpectrum [3, 50, 7]) = 100 ∧
      (normalizeSpectrum [3, 50, 7])[npArgmax ([3, 50, 7] : List ℚ)]? = some 0) :=
  ⟨by decide, by decide, fourier_song_normalization [3, 50, 7] (by decide) (by decide)⟩

/-! Claim C2 -/

/-- C2: for a waveform of length n ≥ 1, the zero-padded length used by
fourier_song is the smallest power of two that is at least n; when n is
itself a power of two the padded length equals n; and the padded signal
is the original samples followed by zeros. -/
theorem fourier_song_zero_padding (xs : List ℚ) (h1 : 1 ≤ xs.length) :
    xs.length ≤ padLength xs.length ∧
    (∀ k, xs.length ≤ 2 ^ k → padLength xs.length ≤ 2 ^ k) ∧
    (∀ j, xs.length = 2 ^ j → padLength xs.length = xs.length) ∧
    (zeroPad xs).length = padLength xs.length ∧
    (zeroPad xs).take xs.length = xs ∧
    (zeroPad xs).drop xs.length = List.replicate (padLength xs.length - xs.length) 0 := by
  have hle : xs.length ≤ padLength xs.length := Nat.le_pow_clog (by norm_num) _
  refine ⟨hle, ?_, ?_, ?_, ?_, ?_⟩
  · intro k hk
    exact Nat.pow_le_pow_right (by norm_num) ((Nat.le_pow_iff_clog_le (by norm_num)).mp hk)
  · intro j hj
    rw [padLength, hj, Nat.clog_pow 2 j (by norm_num)]
  · rw [zeroPad]
    simp [Nat.add_sub_cancel' hle]
  · exact List.take_left xs _
  · exact List.drop_left xs _

/-- C2 witness: the theorem applied to the concrete waveform
[5, 7, 9] of length 3, whose padded length is 4. -/
theorem fourier_song_zero_padding_witness :
    1 ≤ ([5, 7, 9] : List ℚ).length ∧
    (([5, 7, 9] : List ℚ).length ≤ padLength ([5, 7, 9] : List ℚ).length ∧
      (∀ k, ([5, 7, 9] : List ℚ).length ≤ 2 ^ k →
        padLength ([5, 7, 9] : List ℚ).length ≤ 2 ^ k) ∧
      (∀ j, ([5, 7, 9] : List ℚ).length = 2 ^ j →
        padLength ([5, 7, 9] : List ℚ).length = ([5, 7, 9] : List ℚ).length) ∧
      (zeroPad [5, 7, 9]).length = padLength ([5, 7, 9] : List ℚ).length ∧
      (zeroPad [5, 7, 9]).take ([5, 7, 9] : List ℚ).length = [5, 7, 9] ∧
      (zeroPad [5, 7, 9]).drop ([5, 7, 9] : List ℚ).length =
        List.replicate (padLength ([5, 7, 9] : List ℚ).length - ([5, 7, 9] : List ℚ).length) 0) :=
  ⟨by decide, fourier_song_zero_padding [5, 7, 9] (by decide)⟩

/-! Claim C3 -/

/-- C3: for every input to group_by_freq and every bin index i below
int(max_rate / min_freq), the output at index i is the arithmetic mean of
the source frequencies f with i ≤ f < i + min_freq paired with the
arithmetic mean of the source magnitudes over the same half-open
interval; a bin with no source point yields (none, none), the model of
the NaN pair, and the function still returns a full-length result. -/
theorem group_by_freq_bin_mean (pts : List (ℚ × ℚ)) (maxRate minFreq : ℚ) (i : ℕ)
    (hi : i < (⌊maxRate / minFreq⌋).toNat) :
    (group_by_freq pts (some maxRate) minFreq).length = (⌊maxRate / minFreq⌋).toNat ∧
    (group_by_freq pts (some maxRate) minFreq)[i]? =
      some
        (npMean ((pts.filter
          (fun p => decide ((i : ℚ) ≤ p.1 ∧ p.1 < (i : ℚ) + minFreq))).map Prod.fst),
         npMean ((pts.filter
          (fun p => decide ((i : ℚ) ≤ p.1 ∧ p.1 < (i : ℚ) + minFreq))).map Prod.snd)) ∧
    (pts.filter (fun p => decide ((i : ℚ) ≤ p.1 ∧ p.1 < (i : ℚ) + minFreq)) = [] →
      (group_by_freq pts (some maxRate) minFreq)[i]? = some (none, none)) := by
  have hfil : pts.filter (fun p => decide ((i : ℚ) ≤ p.1 ∧ p.1 < (i : ℚ) + minFreq)) =
      binPoints pts i minFreq := by
    simp [binPoints, Bool.decide_and]
  have hlen : (group_by_freq pts (some maxRate) minFreq).length =
      (⌊maxRate / minFreq⌋).toNat := by
    simp [group_by_freq]
  have hget : (group_by_freq pts (some maxRate) minFreq)[i]? =
      some (npMean ((binPoints pts i minFreq).map Prod.fst),
            npMean ((binPoints pts i minFreq).map Prod.snd)) := by
    simp [group_by_freq, List.getElem?_map, List.getElem?_range hi]
  refine ⟨hlen, by rw [hfil]; exact hget, ?_⟩
  intro hempty
  rw [hget, hfil.symm, hempty]
  simp [npMean]

/-- C3 witness: the theorem applied to the two-point spectrum
[(0, 10), (5/2, 20)] with max_rate 4, min_freq 1 at bin index 1, which is
empty. -/
theorem group_by_freq_bin_mean_witness :
    1 < (⌊(4 : ℚ) / 1⌋).toNat ∧
    ((group_by_freq ([(0, 10), (5 / 2, 20)] : List (ℚ × ℚ)) (some 4) 1).length =
        (⌊(4 : ℚ) / 1⌋).toNat ∧
    (group_by_freq ([(0, 10), (5 / 2, 20)] : List (ℚ × ℚ)) (some 4) 1)[1]? =
      some
        (npMean ((([(0, 10), (5 / 2, 20)] : List (ℚ × ℚ)).filter
          (fun p => decide (((1 : ℕ) : ℚ) ≤ p.1 ∧ p.1 < ((1 : ℕ) : ℚ) + 1))).map Prod.fst),
         npMean ((([(0, 10), (5 / 2, 20)] : List (ℚ × ℚ)).filter
          (fun p => decide (((1 : ℕ) : ℚ) ≤ p.1 ∧ p.1 < ((1 : ℕ) : ℚ) + 1))).map Prod.snd)) ∧
    (([(0, 10), (5 / 2, 20)] : List (ℚ × ℚ)).filter
        (fun p => decide (((1 : ℕ) : ℚ) ≤ p.1 ∧ p.1 < ((1 : ℕ) : ℚ) + 1)) = [] →
      (group_by_freq ([(0, 10), (5 / 2, 20)] : List (ℚ × ℚ)) (some 4) 1)[1]? =
        some (none, none))) :=
  ⟨by with_unfolding_all decide,
   group_by_freq_bin_mean [(0, 10), (5 / 2, 20)] 4 1 1 (by with_unfolding_all decide)⟩

/-! Claim C4 -/

/-- C4 counterexample: [(0,5),(1,6),(2,7)] is itself the binned output of
the evenly spaced four-point spectrum [(0,5),(1,6),(2,7),(3,8)], so it is
an already-binned, evenly spaced spectrum; yet re-binning it with the
same min_freq = 1 (and the default max_rate = max frequency) produces
only two bins, not the same arrays: the claimed idempotence fails. -/
theorem group_by_freq_rebin_shrinks :
    group_by_freq ([(0, 5), (1, 6), (2, 7), (3, 8)] : List (ℚ × ℚ)) none 1 =
      [(some 0, some 5), (some 1, some 6), (some 2, some 7)] ∧
    group_by_freq ([(0, 5), (1, 6), (2, 7)] : List (ℚ × ℚ)) none 1 ≠
      [(some 0, some 5), (some 1, some 6), (some 2, some 7)] ∧
    (group_by_freq ([(0, 5), (1, 6), (2, 7)] : List (ℚ × ℚ)) none 1).length = 2 :=
  ⟨by with_unfolding_all decide, by with_unfolding_all decide,
   by with_unfolding_all decide⟩

/-- C4 amended: re-binning is only shape-preserving when max_rate is
passed explicitly as the bin count of the already-binned spectrum.  For a
spectrum whose bin i frequency lies in [i, i + 1), applying group_by_freq
with min_freq = 1 and max_rate = length reproduces exactly the same
frequency and amplitude values; with the default max_rate = max(freq) the
output length is int(max freq), which drops the trailing bin. -/
theorem group_by_freq_rebin_explicit_max (binned : List (ℚ × ℚ))
    (hal : ∀ j (hj : j < binned.length),
      (j : ℚ) ≤ binned[j].1 ∧ binned[j].1 < (j : ℚ) + 1) :
    group_by_freq binned (some (binned.length : ℚ)) 1 =
      binned.map (fun p => (some p.1, some p.2)) := by
  have hal0 : ∀ j (hj : j < binned.length),
      ((0 + j : ℕ) : ℚ) ≤ binned[j].1 ∧ binned[j].1 < ((0 + j : ℕ) : ℚ) + 1 := by
    intro j hj
    simpa [Nat.zero_add] using hal j hj
  have hLen : (⌊(binned.length : ℚ) / 1⌋).toNat = binned.length := by
    simp
  simp only [group_by_freq, Option.getD_some, hLen]
  apply List.ext_getElem
  · simp
  · intro i h1 h2
    have hi : i < binned.length := by simpa using h2
    have hbp : binPoints binned i 1 = [binned[i]] := by
      rw [binPoints]
      have := binPoints_aligned binned 0 hal0 i hi
      simpa [Nat.zero_add] using this
    simp [hbp, npMean]

/-- C4 amended witness: the theorem applied to the concrete binned
spectrum [(1/2, 5), (3/2, 6)]. -/
theorem group_by_freq_rebin_explicit_max_witness :
    (∀ j (hj : j < ([(1 / 2, 5), (3 / 2, 6)] : List (ℚ × ℚ)).length),
      (j : ℚ) ≤ (([(1 / 2, 5), (3 / 2, 6)] : List (ℚ × ℚ))[j]).1 ∧
      (([(1 / 2, 5), (3 / 2, 6)] : List (ℚ × ℚ))[j]).1 < (j : ℚ) + 1) ∧
    group_by_freq ([(1 / 2, 5), (3 / 2, 6)] : List (ℚ × ℚ))
        (some (([(1 / 2, 5), (3 / 2, 6)] : List (ℚ × ℚ)).length : ℚ)) 1 =
      ([(1 / 2, 5), (3 / 2, 6)] : List (ℚ × ℚ)).map (fun p => (some p.1, some p.2)) :=
  ⟨by with_unfolding_all decide,
   group_by_freq_rebin_explicit_max [(1 / 2, 5), (3 / 2, 6)]
     (by with_unfolding_all decide)⟩

/-! Claim C5 -/

/-- C5: limit_by_freq is inclusive at the upper bound: a source point
whose frequency equals upper_limit exactly is retained, every point with
frequency strictly above upper_limit is dropped, and the retained points
keep their relative order (the output is a sublist of the input). -/
theorem limit_by_freq_upper_inclusive (pts : List (ℚ × ℚ)) (upper : ℚ) (p : ℚ × ℚ)
    (hmem : p ∈ pts) (heq : p.1 = upper) :
    p ∈ limit_by_freq pts upper none ∧
    (∀ q ∈ limit_by_freq pts upper none, ¬ upper < q.1) ∧
    (limit_by_freq pts upper none).Sublist pts := by
  refine ⟨?_, ?_, ?_⟩
  · simp [limit_by_freq, List.mem_filter, hmem, heq]
  · intro q hq
    simp only [limit_by_freq, List.mem_filter, decide_eq_true_eq] at hq
    exact not_lt.mpr hq.2
  · simp only [limit_by_freq]
    exact List.filter_sublist pts

/-- C5 witness: the theorem applied to [(3,1),(5,9),(7,2)] with
upper_limit 5 and the boundary point (5, 9). -/
theorem limit_by_freq_upper_inclusive_witness :
    ((5, 9) : ℚ × ℚ) ∈ ([(3, 1), (5, 9), (7, 2)] : List (ℚ × ℚ)) ∧
    ((5, 9) : ℚ × ℚ).1 = 5 ∧
    (((5, 9) : ℚ × ℚ) ∈ limit_by_freq ([(3, 1), (5, 9), (7, 2)] : List (ℚ × ℚ)) 5 none ∧
     (∀ q ∈ limit_by_freq ([(3, 1), (5, 9), (7, 2)] : List (ℚ × ℚ)) 5 none,
        ¬ (5 : ℚ) < q.1) ∧
     (limit_by_freq ([(3, 1), (5, 9), (7, 2)] : List (ℚ × ℚ)) 5 none).Sublist
        [(3, 1), (5, 9), (7, 2)]) :=
  ⟨by with_unfolding_all decide, by with_unfolding_all decide,
   limit_by_freq_upper_inclusive [(3, 1), (5, 9), (7, 2)] 5 (5, 9)
     (by with_unfolding_all decide) (by with_unfolding_all decide)⟩

/-! Claim C6 -/

/-- C6 counterexample: with overwrite = false and an existing record, the
re-run leaves the record unchanged and does not reach fourier_song, but
transform_wav is still invoked (line 167 runs before the overwrite guard
of line 171), refuting the claim that the decoder is not invoked for the
track. -/
theorem time_to_frequency_calls_decoder :
    (time_to_frequency (some "record") false false "new").1 = some "record" ∧
    Event.fourierSongCall ∉ (time_to_frequency (some "record") false false "new").2 ∧
    Event.transformWavCall ∈ (time_to_frequency (some "record") false false "new").2 :=
  ⟨rfl, by decide, by decide⟩

/-- C6 amended: with overwrite = false and an existing record, re-running
leaves the record byte-for-byte unchanged and invokes neither
fourier_song nor the save nor the plot, but transform_wav is invoked on
every run (it only skips its external tools when the wav file already
exists, which is a different file than the record). -/
theorem time_to_frequency_skip_keeps_record (content newContent : String) (plot : Bool) :
    time_to_frequency (some content) false plot newContent =
      (some content, [Event.transformWavCall]) := rfl

/-! Claim C7 -/

/-- C7 counterexample: when the primary tool exits with the non-zero code
1, no exception is raised by subprocess.run, so ffmpeg is never
attempted, refuting the claim that any failure of the primary triggers
the secondary; and when both launches raise, the second exception
escapes to the caller, refuting the claim that no error is raised. -/
theorem transform_wav_no_fallback_on_exit_code :
    (transform_wav false (RunOutcome.exits 1) (RunOutcome.exits 0)).1 = [Tool.mpg123] ∧
    Tool.ffmpeg ∉ (transform_wav false (RunOutcome.exits 1) (RunOutcome.exits 0)).1 ∧
    (transform_wav false RunOutcome.raises RunOutcome.raises).2 = true :=
  ⟨rfl, by decide, rfl⟩

/-- C7 amended: when the destination is absent, the secondary tool is
attempted exactly when launching the primary raises an exception; a
non-zero exit status of the primary does not trigger the fallback; an
exception escapes to the caller exactly when both launches raise; and an
existing destination skips both tools. -/
theorem transform_wav_fallback_on_exception (primary secondary : RunOutcome) :
    (Tool.ffmpeg ∈ (transform_wav false primary secondary).1 ↔
      primary = RunOutcome.raises) ∧
    ((transform_wav false primary secondary).2 = true ↔
      (primary = RunOutcome.raises ∧ secondary = RunOutcome.raises)) ∧
    transform_wav true primary secondary = ([], false) := by
  cases primary <;> cases secondary <;> simp [transform_wav]

/-! Claim C8 -/

/-- C8 counterexample: in a batch of three songs where the second unit
fails, the other two units are still executed by the pool, but the
starmap call re-raises the unit error, so all_songs terminates with that
error instead of merely logging it: a unit failure does terminate the
batch. -/
theorem all_songs_aborts_on_unit_error :
    (all_songs (fun n : ℕ => if n = 2 then Except.error "read error" else Except.ok n)
        [1, 2, 3]).2 = Except.error "read error" ∧
    (all_songs (fun n : ℕ => if n = 2 then Except.error "read error" else Except.ok n)
        [1, 2, 3]).1 =
      [Except.ok 1, Except.error "read error", Except.ok 3] :=
  ⟨rfl, rfl⟩

/-- C8 amended: every unit is executed by the pool even when a sibling
fails (the task list is fully mapped before collection), but nothing
catches or logs a unit's error: pool.starmap re-raises it and the
all_songs call terminates with an error instead of best-effort
completion. -/
theorem all_songs_error_propagates {α ε β : Type} (f : α → Except ε β)
    (songs : List α) (s : α) (hs : s ∈ songs) (e : ε) (hf : f s = Except.error e) :
    (all_songs f songs).1 = songs.map f ∧
    ∃ e2, (all_songs f songs).2 = Except.error e2 := by
  refine ⟨rfl, ?_⟩
  exact gatherResults_error (songs.map f) e (by rw [← hf]; exact List.mem_map_of_mem f hs)

/-- C8 amended witness: the theorem applied to a three-song batch whose
second unit fails. -/
theorem all_songs_error_propagates_witness :
    (2 : ℕ) ∈ ([1, 2, 3] : List ℕ) ∧
    (fun n : ℕ => if n = 2 then Except.error "read error" else Except.ok n) 2 =
      (Except.error "read error" : Except String ℕ) ∧
    ((all_songs (fun n : ℕ => if n = 2 then Except.error "read error" else Except.ok n)
        [1, 2, 3]).1 =
      ([1, 2, 3] : List ℕ).map
        (fun n : ℕ => if n = 2 then Except.error "read error" else Except.ok n) ∧
     ∃ e2, (all_songs
        (fun n : ℕ => if n = 2 then Except.error "read error" else Except.ok n)
        [1, 2, 3]).2 = Except.error e2) :=
  ⟨by decide, rfl,
   all_songs_error_propagates _ [1, 2, 3] 2 (by decide) "read error" rfl⟩

/-! Claim C9 -/

/-- C9 counterexample: on a machine with one available core the computed
pool size is int(1 / 2) = 0, not the claimed minimum of 1, and the Pool
constructor raises instead of creating a one-worker pool. -/
theorem pool_size_zero_on_one_core :
    pool_size 1 = 0 ∧ pool_size 1 ≠ 1 ∧
    mk_pool (pool_size 1) = Except.error "Number of processes must be at least 1" :=
  ⟨rfl, by decide, rfl⟩

/-- C9 amended: the pool size is floor(cores / 2) with no minimum
applied: with at least two available cores the pool is created with
floor(cores / 2) ≥ 1 workers, while on a one-core machine the computed
size is 0 and pool creation fails. -/
theorem pool_size_floor (c : ℕ) (h2 : 2 ≤ c) :
    pool_size c = c / 2 ∧ 1 ≤ pool_size c ∧
    mk_pool (pool_size c) = Except.ok (c / 2) := by
  refine ⟨rfl, by rw [pool_size]; omega, ?_⟩
  rw [mk_pool, pool_size, if_neg (by omega)]

/-- C9 amended witness: the theorem applied to a five-core machine. -/
theorem pool_size_floor_witness :
    2 ≤ 5 ∧
    (pool_size 5 = 5 / 2 ∧ 1 ≤ pool_size 5 ∧ mk_pool (pool_size 5) = Except.ok (5 / 2)) :=
  ⟨by decide, pool_size_floor 5 (by decide)⟩

/-! Claim C10 -/

/-- C10: the saved record's payload keys are the stringified bin
frequencies (none models the string 'nan', shared by every NaN frequency
of an empty bin; some q models the text form of the finite value q).
Any two bins with the same key collapse to a single record entry holding
the last such bin's amplitude; every key, 'nan' in particular, has at
most one entry; the record never has more entries than the spectrum has
bins and can have strictly fewer, as the concrete three-bin spectrum
with two empty bins shows. -/
theorem record_keys_collapse (pairs : List (Option ℚ × ℚ)) :
    (∀ k, (build_freq_dict pairs).countP (fun p => decide (p.1 = k)) ≤ 1) ∧
    ((build_freq_dict pairs).countP (fun p => decide (p.1 = (none : Option ℚ))) ≤ 1) ∧
    (∀ k, (build_freq_dict pairs).find? (fun p => decide (p.1 = k)) =
      ((pairs.filter (fun p => decide (p.1 = k))).getLast?).map (fun q => (k, q.2))) ∧
    (build_freq_dict pairs).length ≤ pairs.length ∧
    (build_freq_dict [((none : Option ℚ), 1), (none, 2), (some 3, 4)]).length = 2 ∧
    (build_freq_dict [((none : Option ℚ), 1), (none, 2), (some 3, 4)]).find?
        (fun p => decide (p.1 = (none : Option ℚ))) = some (none, 2) := by
  obtain ⟨h1, h2, h3⟩ := build_freq_dict_invariant pairs
  exact ⟨h1, h1 none, h2, h3, by with_unfolding_all decide, by with_unfolding_all decide⟩

end Foucluster
